import Mathlib

/-!
Shallow embedding of the advertiser frame decoder and inventory ingestion loop
of `wirepas_backend_client`.

The embedding follows the source:
* `AdvertiserMessage.decode` and `AdvertiserMessage.count` in
  `wirepas_backend_client/messages/decoders/advertiser.py`;
* the ingestion loop `AdvertiserManager.test_inventory` in
  `wirepas_backend_client/test/kpi_adv.py`.

Bytes are modelled as `Nat` (with explicit `< 256` bounds where a claim
needs them), Python floats produced by `raw / 2 - 127` as `Rat` (each such
value is a half-integer, so `Rat` is exact), and the insertion-ordered
Python dict `apdu["adv"]` as an association list.
-/

namespace Adv

/-- Modelled from the spec: `tools.chunker` is imported by `advertiser.py`
but its definition is not part of the sources at hand.  Per the spec, the
body "is consumed in fixed chunks of `address_width + 1` bytes" with a
possibly shorter trailing chunk, i.e. `chunker seq size` yields the
consecutive slices `seq[pos:pos+size]` for `pos = 0, size, 2*size, ...`. -/
def chunker (n : Nat) : List Nat → List (List Nat)
  | [] => []
  | x :: xs =>
    if h : n = 0 then []
    else (x :: xs).take n :: chunker n ((x :: xs).drop n)
termination_by l => l.length
decreasing_by
  simp only [List.length_drop, List.length_cons]
  omega

/-- Constant `AdvertiserMessage.message_type_rss`. -/
def message_type_rss : Nat := 2

/-- Constant `AdvertiserMessage.message_type_otap`. -/
def message_type_otap : Nat := 3

/-- The per-address entry `dict(time=None, rss=list(), otap=list(), value=list())`
populated by `AdvertiserMessage.decode`. -/
structure NodeRecord where
  time : Option Nat
  rss : List Rat
  otap : List Nat
  value : List Rat
deriving Repr, DecidableEq

def emptyRecord : NodeRecord :=
  { time := none, rss := [], otap := [], value := [] }

/-- The insertion-ordered dict `self.apdu["adv"]`, as an association list. -/
abbrev AdvMap := List (Nat × NodeRecord)

def lookup : AdvMap → Nat → Option NodeRecord
  | [], _ => none
  | (b, r) :: t, a => if b = a then some r else lookup t a

/-- Python dict write `adv[a] = r`: replace in place when the key exists,
append at the end otherwise. -/
def setRecord : AdvMap → Nat → NodeRecord → AdvMap
  | [], a, r => [(a, r)]
  | (b, s) :: t, a, r => if b = a then (a, r) :: t else (b, s) :: setRecord t a r

/-- The record currently stored for an address, or the fresh empty record the
decoder creates when the address is absent (`if address not in self.apdu["adv"]`). -/
def getRec (adv : AdvMap) (a : Nat) : NodeRecord :=
  (lookup adv a).getD emptyRecord

/-- Address reconstruction, `advertiser.py` lines 112-116:
`address = values[0] | values[1] << 8 | values[2] << 16`, and additionally
`| values[3] << 24` when the address is 4 bytes wide. -/
def chunkAddress (address_len : Nat) (chunk : List Nat) : Nat :=
  let address := chunk.getD 0 0 ||| chunk.getD 1 0 <<< 8 ||| chunk.getD 2 0 <<< 16
  if address_len = 4 then address ||| chunk.getD 3 0 <<< 24 else address

/-- The per-chunk locals of `AdvertiserMessage.decode` (lines 110-127):
`address`, `rss`, `otap` and `value`.  `rss`/`otap` are `None` unless the
frame type matches the corresponding type code. -/
structure ChunkValues where
  address : Nat
  rss : Option Rat
  otap : Option Nat
  value : Rat
deriving Repr, DecidableEq

/-- Lines 110-127 of `advertiser.py`: `value` starts as `values[-1]`, then
the frame type selects the RSS decode `values[-1] / 2 - 127` or the OTAP
decode `values[-1]`. -/
def chunkValues (adv_type address_len : Nat) (chunk : List Nat) : ChunkValues :=
  let address := chunkAddress address_len chunk
  let raw := chunk.getLastD 0
  if adv_type = message_type_rss then
    { address := address, rss := some ((raw : Rat) / 2 - 127), otap := none,
      value := (raw : Rat) / 2 - 127 }
  else if adv_type = message_type_otap then
    { address := address, rss := none, otap := some raw, value := (raw : Rat) }
  else
    { address := address, rss := none, otap := none, value := (raw : Rat) }

/-- Python truthiness of the local `rss` (a float or `None`):
`if rss:` is taken exactly when `rss` is a non-zero number. -/
def truthyRat : Option Rat → Bool
  | none => false
  | some r => decide (r ≠ 0)

/-- Python truthiness of the local `otap` (an int or `None`). -/
def truthyNat : Option Nat → Bool
  | none => false
  | some n => decide (n ≠ 0)

/-- One iteration of the decoding loop of `AdvertiserMessage.decode`
(lines 106-141): a chunk shorter than `address_len + 1` is skipped
(`continue`); otherwise the node entry is created if absent, its `time`
is overwritten with the message timestamp, and the sample is appended to
the `rss`, `otap` or `value` list according to the truthiness of the
locals `rss` and `otap`. -/
def processChunk (timestamp adv_type address_len : Nat) (adv : AdvMap)
    (chunk : List Nat) : AdvMap :=
  if chunk.length < address_len + 1 then adv
  else
    let v := chunkValues adv_type address_len chunk
    let rec0 := getRec adv v.address
    let rec1 := { rec0 with time := some timestamp }
    let rec2 :=
      if truthyRat v.rss then { rec1 with rss := rec1.rss ++ [v.rss.getD 0] }
      else if truthyNat v.otap then { rec1 with otap := rec1.otap ++ [v.otap.getD 0] }
      else { rec1 with value := rec1.value ++ [v.value] }
    setRecord adv v.address rec2

/-- The failure of `struct.Struct("<B B").unpack(self.data_payload[0:2])`
when the payload holds fewer than 2 bytes (`struct.error`, the decode
failure the spec names `DecodeError`). -/
inductive DecodeError
  | headerTooShort
deriving Repr, DecidableEq

/-- The outputs of one `decode()` call: `apdu["adv_type"]`,
`apdu["adv_reserved_field"]` and the updated `apdu["adv"]` map. -/
structure Decoded where
  adv_type : Nat
  adv_reserved_field : Nat
  adv : AdvMap
deriving Repr, DecidableEq

/-- Function `AdvertiserMessage.decode` (lines 88-141), as a function of the raw
payload bytes and the pre-existing `apdu["adv"]` map (`decode` mutates the
message in place, so the map is threaded explicitly).  Unpacking the
2-byte header fails when the buffer is shorter than 2 bytes; afterwards
`adv_type = header[0] & 0x7F`, the address width is 4 when
`header[0] >> 7 == 1` and 3 otherwise, and the body after the header is
consumed chunk by chunk. -/
def decode (timestamp : Nat) (buffer : List Nat) (adv0 : AdvMap) :
    Except DecodeError Decoded :=
  if buffer.length < 2 then .error .headerTooShort
  else
    let header0 := buffer.getD 0 0
    let header1 := buffer.getD 1 0
    let adv_type := header0 &&& 0x7F
    let address_len := if header0 >>> 7 = 1 then 4 else 3
    let body := buffer.drop 2
    .ok { adv_type := adv_type, adv_reserved_field := header1,
          adv := (chunker (address_len + 1) body).foldl
            (processChunk timestamp adv_type address_len) adv0 }

/-- Function `AdvertiserMessage.count` (lines 66-72): increment the shared counter
and stamp the message with its new value.  Returns the new counter
together with the index assigned to the message. -/
def count (message_counter : Nat) : Nat × Nat :=
  let c := message_counter + 1
  (c, c)

/-- Indices handed out by `count` to `n` successively constructed messages,
starting from counter value `c`. -/
def indicesFrom (c : Nat) : Nat → List Nat
  | 0 => []
  | n + 1 =>
    let r := count c
    r.2 :: indicesFrom r.1 n

/-- Indices assigned to the `n` messages constructed during one inventory
run.  `AdvertiserManager.test_inventory` (`kpi_adv.py` line 108) executes
`AdvertiserMessage.message_counter = 0` before entering its loop, so the
counter value left over from earlier runs is discarded. -/
def inventoryRunIndices (message_counter_before n : Nat) : List Nat :=
  indicesFrom 0 n

/-- Repeated calls of `decode()` on the same message: the constructor calls
it once and every further call runs on the map left by the previous one. -/
def decodeIter (timestamp : Nat) (buffer : List Nat) : Nat → AdvMap → AdvMap
  | 0, adv => adv
  | n + 1, adv =>
    match decode timestamp buffer adv with
    | .ok d => decodeIter timestamp buffer n d.adv
    | .error _ => adv

/-- Number of stored samples of a node entry (all three lists together). -/
def recSize (r : NodeRecord) : Nat :=
  r.rss.length + r.otap.length + r.value.length

/-- Total number of samples stored across the whole `apdu["adv"]` map. -/
def totalSamples (adv : AdvMap) : Nat :=
  (adv.map fun p => recSize p.2).sum

/-- Full chunks of the body that target address `a`. -/
def fullChunksFor (address_len : Nat) (body : List Nat) (a : Nat) : Nat :=
  ((chunker (address_len + 1) body).filter
    (fun c => decide (address_len + 1 ≤ c.length) && decide (chunkAddress address_len c = a))).length

/-- Environment visible to one iteration of the ingestion loop of
`AdvertiserManager.test_inventory` (`kpi_adv.py` lines 111-166): the state
of the external exit flag when the `while` guard polls it, the outcome of
`rx_queue.get` (`some frame`, or `none` for a `queue.Empty` timeout), and
the answers the `Inventory` object gives to the four completion queries. -/
structure IterEnv where
  exit_flag : Bool
  queue_item : Option Nat
  out_of_time : Bool
  complete : Bool
  otaped : Bool
  frequency_reached : Bool

/-- Why the ingestion loop stopped. -/
inductive ExitReason
  | exit_signal
  | out_of_time
  | complete
  | otaped
  | frequency_reached
  | env_exhausted
deriving Repr, DecidableEq

/-- Loop-local state of `test_inventory`: the frames dequeued and fed to
`inventory.add` so far, and the `empty_counter` local. -/
structure LoopState where
  processed : List Nat
  empty_counter : Nat
deriving Repr, DecidableEq

/-- The ingestion loop of `AdvertiserManager.test_inventory`
(`kpi_adv.py` lines 111-166).  Each iteration first polls the exit flag
(the `while not self.exit_signal.is_set()` guard, once per iteration); a
`queue.Empty` timeout increments `empty_counter` (resetting it after 10)
and breaks exactly when `inventory.is_out_of_time()`; a dequeued frame is
processed (`inventory.add` per advertiser) and then the four completion
checks run in order. -/
def test_inventory_loop : List IterEnv → LoopState → LoopState × ExitReason
  | [], s => (s, .env_exhausted)
  | e :: rest, s =>
    if e.exit_flag then (s, .exit_signal)
    else
      match e.queue_item with
      | none =>
        let ec0 := s.empty_counter + 1
        let ec := if ec0 > 10 then 0 else ec0
        if e.out_of_time then ({ s with empty_counter := ec }, .out_of_time)
        else test_inventory_loop rest { s with empty_counter := ec }
      | some frame =>
        let s1 : LoopState := { processed := s.processed ++ [frame], empty_counter := 0 }
        if e.out_of_time then (s1, .out_of_time)
        else if e.complete then (s1, .complete)
        else if e.otaped then (s1, .otaped)
        else if e.frequency_reached then (s1, .frequency_reached)
        else test_inventory_loop rest s1

/-- The three sample lists of `s` extend those of `r`: every previously
stored sample is still present, at its old position. -/
def recListsExtend (r s : NodeRecord) : Prop :=
  (∃ t1, s.rss = r.rss ++ t1) ∧ (∃ t2, s.otap = r.otap ++ t2) ∧
    (∃ t3, s.value = r.value ++ t3)

/-- Every address's lists in `adv'` extend those it has in `adv`. -/
def mapListsExtend (adv adv' : AdvMap) : Prop :=
  ∀ a, recListsExtend (getRec adv a) (getRec adv' a)
end Adv

namespace Adv

theorem chunker_nil (n : Nat) : chunker n [] = [] := by
  simp [chunker]

theorem chunker_eq (n : Nat) (l : List Nat) (hn : n ≠ 0) (hl : l ≠ []) :
    chunker n l = l.take n :: chunker n (l.drop n) := by
  match l with
  | [] => exact absurd rfl hl
  | x :: xs => simp [chunker, hn]

theorem chunker_full_count (n : Nat) (hn : 0 < n) : ∀ l : List Nat,
    ((chunker n l).filter fun c => decide (n ≤ c.length)).length = l.length / n
  | [] => by simp [chunker_nil]
  | x :: xs => by
    rw [chunker_eq n (x :: xs) (by omega) (by simp)]
    have ih := chunker_full_count n hn ((x :: xs).drop n)
    by_cases hle : n ≤ (x :: xs).length
    · have ht : ((x :: xs).take n).length = n := by
        simp only [List.length_take]
        omega
      rw [List.filter_cons_of_pos (by simp [ht]), List.length_cons, ih, List.length_drop,
        Nat.div_eq_sub_div hn hle]
    · have hlen : (x :: xs).length < n := by omega
      have hd : (x :: xs).drop n = [] := by
        apply List.eq_nil_of_length_eq_zero
        simp only [List.length_drop]
        omega
      have ht : ¬ (n ≤ ((x :: xs).take n).length) := by
        simp only [List.length_take]
        omega
      rw [hd, chunker_nil, List.filter_cons_of_neg (by simpa using ht), List.filter_nil,
        List.length_nil, Nat.div_eq_of_lt hlen]
termination_by l => l.length
decreasing_by
  simp only [List.length_drop, List.length_cons]
  omega

end Adv

namespace Adv

theorem lookup_setRecord (adv : AdvMap) (a b : Nat) (r : NodeRecord) :
    lookup (setRecord adv a r) b = if a = b then some r else lookup adv b := by
  induction adv with
  | nil => by_cases hab : a = b <;> simp [setRecord, lookup, hab]
  | cons p t ih =>
    obtain ⟨c, s⟩ := p
    by_cases hca : c = a
    · subst hca
      by_cases hab : c = b <;> simp [setRecord, lookup, hab]
    · by_cases hcb : c = b
      · subst hcb
        have e1 : setRecord ((c, s) :: t) a r = (c, s) :: setRecord t a r := by
          simp [setRecord, hca]
        rw [e1, if_neg (fun hac : a = c => hca hac.symm)]
        simp [lookup]
      · simp [setRecord, lookup, hca, hcb, ih]

theorem getRec_setRecord (adv : AdvMap) (a b : Nat) (r : NodeRecord) :
    getRec (setRecord adv a r) b = if a = b then r else getRec adv b := by
  by_cases hab : a = b <;> simp [getRec, lookup_setRecord, hab]

theorem totalSamples_setRecord (adv : AdvMap) (a : Nat) (r : NodeRecord) :
    totalSamples (setRecord adv a r) + recSize (getRec adv a) =
      totalSamples adv + recSize r := by
  induction adv with
  | nil => simp [setRecord, totalSamples, getRec, lookup, emptyRecord, recSize]
  | cons p t ih =>
    obtain ⟨c, s⟩ := p
    by_cases hca : c = a
    · subst hca
      simp [setRecord, totalSamples, getRec, lookup]
      omega
    · simp only [setRecord, if_neg hca, totalSamples, List.map_cons, List.sum_cons, getRec,
        lookup, if_neg hca]
      have := ih
      simp only [totalSamples, getRec] at this
      omega

end Adv

namespace Adv

theorem chunkValues_address (t w : Nat) (c : List Nat) :
    (chunkValues t w c).address = chunkAddress w c := by
  simp only [chunkValues]
  split <;> first | rfl | split <;> rfl

theorem processChunk_short (ts t w : Nat) (adv : AdvMap) (c : List Nat)
    (h : c.length < w + 1) : processChunk ts t w adv c = adv := by
  simp [processChunk, h]

theorem processChunk_full (ts t w : Nat) (adv : AdvMap) (c : List Nat)
    (h : ¬ c.length < w + 1) :
    ∃ r : NodeRecord,
      processChunk ts t w adv c = setRecord adv (chunkAddress w c) r ∧
      r.time = some ts ∧
      recSize r = recSize (getRec adv (chunkAddress w c)) + 1 ∧
      (∃ t1, r.rss = (getRec adv (chunkAddress w c)).rss ++ t1) ∧
      (∃ t2, r.otap = (getRec adv (chunkAddress w c)).otap ++ t2) ∧
      (∃ t3, r.value = (getRec adv (chunkAddress w c)).value ++ t3) := by
  simp only [processChunk, if_neg h, chunkValues_address]
  set v := chunkValues t w c with hv
  set rec0 := getRec adv (chunkAddress w c) with hrec0
  by_cases h1 : truthyRat v.rss
  · refine ⟨_, by rw [if_pos h1], rfl, ?_, ⟨[v.rss.getD 0], rfl⟩, ⟨[], by simp⟩, ⟨[], by simp⟩⟩
    simp [recSize]
    omega
  · by_cases h2 : truthyNat v.otap
    · refine ⟨_, by rw [if_neg h1, if_pos h2], rfl, ?_, ⟨[], by simp⟩,
        ⟨[v.otap.getD 0], rfl⟩, ⟨[], by simp⟩⟩
      simp [recSize]
      omega
    · refine ⟨_, by rw [if_neg h1, if_neg h2], rfl, ?_, ⟨[], by simp⟩, ⟨[], by simp⟩,
        ⟨[v.value], rfl⟩⟩
      simp [recSize]
      omega

end Adv

namespace Adv

theorem totalSamples_processChunk (ts t w : Nat) (adv : AdvMap) (c : List Nat) :
    totalSamples (processChunk ts t w adv c) =
      totalSamples adv + if w + 1 ≤ c.length then 1 else 0 := by
  by_cases h : c.length < w + 1
  · rw [processChunk_short ts t w adv c h, if_neg (by omega)]
    omega
  · obtain ⟨r, he, -, hsize, -⟩ := processChunk_full ts t w adv c h
    rw [he, if_pos (by omega)]
    have := totalSamples_setRecord adv (chunkAddress w c) r
    omega

theorem totalSamples_foldl (ts t w : Nat) : ∀ (cs : List (List Nat)) (adv : AdvMap),
    totalSamples (cs.foldl (processChunk ts t w) adv) =
      totalSamples adv + ((cs.filter fun c => decide (w + 1 ≤ c.length)).length)
  | [], adv => by simp
  | c :: cs, adv => by
    simp only [List.foldl_cons, List.filter_cons]
    rw [totalSamples_foldl ts t w cs (processChunk ts t w adv c), totalSamples_processChunk]
    by_cases h : w + 1 ≤ c.length <;> simp [h] <;> omega

theorem recSize_getRec_processChunk (ts t w : Nat) (adv : AdvMap) (c : List Nat) (a : Nat) :
    recSize (getRec (processChunk ts t w adv c) a) =
      recSize (getRec adv a) +
        if w + 1 ≤ c.length ∧ chunkAddress w c = a then 1 else 0 := by
  by_cases h : c.length < w + 1
  · rw [processChunk_short ts t w adv c h, if_neg (by omega)]
    omega
  · obtain ⟨r, he, -, hsize, -⟩ := processChunk_full ts t w adv c h
    rw [he, getRec_setRecord]
    by_cases ha : chunkAddress w c = a
    · rw [if_pos ha, if_pos ⟨by omega, ha⟩, ← ha]
      omega
    · rw [if_neg ha, if_neg (fun hh => ha hh.2)]
      omega

theorem recSize_getRec_foldl (ts t w a : Nat) : ∀ (cs : List (List Nat)) (adv : AdvMap),
    recSize (getRec (cs.foldl (processChunk ts t w) adv) a) =
      recSize (getRec adv a) +
        ((cs.filter fun c =>
          decide (w + 1 ≤ c.length) && decide (chunkAddress w c = a)).length)
  | [], adv => by simp
  | c :: cs, adv => by
    simp only [List.foldl_cons, List.filter_cons]
    rw [recSize_getRec_foldl ts t w a cs (processChunk ts t w adv c),
      recSize_getRec_processChunk]
    by_cases h1 : w + 1 ≤ c.length
    · by_cases h2 : chunkAddress w c = a <;> simp [h1, h2] <;> omega
    · simp [h1]

end Adv

namespace Adv

theorem recListsExtend_refl (r : NodeRecord) : recListsExtend r r :=
  ⟨⟨[], by simp⟩, ⟨[], by simp⟩, ⟨[], by simp⟩⟩

theorem recListsExtend_trans {r s u : NodeRecord} (h1 : recListsExtend r s)
    (h2 : recListsExtend s u) : recListsExtend r u := by
  obtain ⟨⟨a1, e1⟩, ⟨a2, e2⟩, ⟨a3, e3⟩⟩ := h1
  obtain ⟨⟨b1, f1⟩, ⟨b2, f2⟩, ⟨b3, f3⟩⟩ := h2
  refine ⟨⟨a1 ++ b1, ?_⟩, ⟨a2 ++ b2, ?_⟩, ⟨a3 ++ b3, ?_⟩⟩ <;>
    simp [f1, e1, f2, e2, f3, e3]

theorem mapListsExtend_processChunk (ts t w : Nat) (adv : AdvMap) (c : List Nat) :
    mapListsExtend adv (processChunk ts t w adv c) := by
  intro a
  by_cases h : c.length < w + 1
  · rw [processChunk_short ts t w adv c h]
    exact recListsExtend_refl _
  · obtain ⟨r, he, -, -, h4, h5, h6⟩ := processChunk_full ts t w adv c h
    rw [he, getRec_setRecord]
    by_cases ha : chunkAddress w c = a
    · rw [if_pos ha, ← ha]
      exact ⟨h4, h5, h6⟩
    · rw [if_neg ha]
      exact recListsExtend_refl _

theorem mapListsExtend_foldl (ts t w : Nat) : ∀ (cs : List (List Nat)) (adv : AdvMap),
    mapListsExtend adv (cs.foldl (processChunk ts t w) adv)
  | [], _ => fun _ => recListsExtend_refl _
  | c :: cs, adv => fun a =>
    recListsExtend_trans (mapListsExtend_processChunk ts t w adv c a)
      (mapListsExtend_foldl ts t w cs (processChunk ts t w adv c) a)

theorem time_processChunk (ts t w : Nat) (adv : AdvMap) (c : List Nat)
    (h : ¬ c.length < w + 1) :
    (getRec (processChunk ts t w adv c) (chunkAddress w c)).time = some ts := by
  obtain ⟨r, he, ht, -⟩ := processChunk_full ts t w adv c h
  rw [he, getRec_setRecord, if_pos rfl]
  exact ht

theorem decode_ok (ts : Nat) (buffer : List Nat) (adv0 : AdvMap)
    (h : ¬ buffer.length < 2) :
    decode ts buffer adv0 = .ok
      { adv_type := buffer.getD 0 0 &&& 0x7F,
        adv_reserved_field := buffer.getD 1 0,
        adv := (chunker ((if buffer.getD 0 0 >>> 7 = 1 then 4 else 3) + 1)
            (buffer.drop 2)).foldl
          (processChunk ts (buffer.getD 0 0 &&& 0x7F)
            (if buffer.getD 0 0 >>> 7 = 1 then 4 else 3)) adv0 } := by
  simp only [decode, if_neg h]

theorem chunker_subset (n : Nat) : ∀ (l : List Nat), ∀ c ∈ chunker n l, ∀ x ∈ c, x ∈ l
  | [], c, hc => by simp [chunker_nil] at hc
  | y :: ys, c, hc => by
    intro x hx
    by_cases hn : n = 0
    · subst hn
      simp [chunker] at hc
    · rw [chunker_eq n (y :: ys) hn (by simp)] at hc
      rcases List.mem_cons.1 hc with h1 | h1
      · subst h1
        exact List.take_subset n (y :: ys) hx
      · exact List.drop_subset n (y :: ys)
          (chunker_subset n ((y :: ys).drop n) c h1 x hx)
termination_by l => l.length
decreasing_by
  simp only [List.length_drop, List.length_cons]
  omega

theorem getD_lt_of_forall (c : List Nat) (i : Nat) (h : ∀ x ∈ c, x < 256) :
    c.getD i 0 < 256 := by
  by_cases hi : i < c.length
  · rw [List.getD_eq_getElem c 0 hi]
    exact h _ (List.getElem_mem hi)
  · rw [List.getD_eq_default]
    · omega
    · omega

theorem lor_shiftLeft_eq_add : ∀ (k a b : Nat), a < 2 ^ k → a ||| b <<< k = a + b * 2 ^ k
  | 0, a, b, h => by
    have ha : a = 0 := by simpa using h
    subst ha
    simp
  | k + 1, a, b, h => by
    have h2 : (2:Nat) ^ (k + 1) = 2 * 2 ^ k := by ring
    have hlt : a / 2 < 2 ^ k := by omega
    have ih := lor_shiftLeft_eq_add k (a / 2) b hlt
    have e1 : a ||| b <<< (k + 1) = Nat.bit (decide (a % 2 = 1)) (a / 2 ||| b <<< k) := by
      conv_lhs => rw [← Nat.bit_decide_mod_two_eq_one_shiftRight_one a]
      have hb : b <<< (k + 1) = Nat.bit false (b <<< k) := by
        simp [Nat.bit_val, Nat.shiftLeft_eq]
        ring
      rw [hb, Nat.lor_bit]
      simp [Nat.shiftRight_one]
    have h3 : b * 2 ^ (k + 1) = 2 * (b * 2 ^ k) := by rw [h2]; ring
    rw [e1, ih, Nat.bit_val, h3]
    rcases Nat.mod_two_eq_zero_or_one a with hm | hm <;> simp [hm] <;> omega

theorem chunkAddress_littleEndian (w : Nat) (c : List Nat)
    (hb : ∀ x ∈ c, x < 256) :
    chunkAddress w c =
      if w = 4 then
        c.getD 0 0 + 256 * c.getD 1 0 + 65536 * c.getD 2 0 + 16777216 * c.getD 3 0
      else
        c.getD 0 0 + 256 * c.getD 1 0 + 65536 * c.getD 2 0 := by
  have h0 := getD_lt_of_forall c 0 hb
  have h1 := getD_lt_of_forall c 1 hb
  have h2 := getD_lt_of_forall c 2 hb
  have hp8 : (2:Nat) ^ 8 = 256 := by norm_num
  have hp16 : (2:Nat) ^ 16 = 65536 := by norm_num
  have hp24 : (2:Nat) ^ 24 = 16777216 := by norm_num
  have e1 : c.getD 0 0 ||| c.getD 1 0 <<< 8 = c.getD 0 0 + c.getD 1 0 * 256 := by
    have := lor_shiftLeft_eq_add 8 (c.getD 0 0) (c.getD 1 0) (by omega)
    rw [hp8] at this
    exact this
  have hlt2 : c.getD 0 0 + c.getD 1 0 * 256 < 2 ^ 16 := by omega
  have e2 : c.getD 0 0 ||| c.getD 1 0 <<< 8 ||| c.getD 2 0 <<< 16 =
      c.getD 0 0 + c.getD 1 0 * 256 + c.getD 2 0 * 65536 := by
    rw [e1]
    have := lor_shiftLeft_eq_add 16 (c.getD 0 0 + c.getD 1 0 * 256) (c.getD 2 0) hlt2
    rw [hp16] at this
    exact this
  have hlt3 : c.getD 0 0 + c.getD 1 0 * 256 + c.getD 2 0 * 65536 < 2 ^ 24 := by omega
  by_cases hw : w = 4
  · rw [if_pos hw]
    simp only [chunkAddress, if_pos hw]
    rw [e2]
    have e3 := lor_shiftLeft_eq_add 24
      (c.getD 0 0 + c.getD 1 0 * 256 + c.getD 2 0 * 65536) (c.getD 3 0) hlt3
    rw [hp24] at e3
    rw [e3]
    ring
  · rw [if_neg hw]
    simp only [chunkAddress, if_neg hw]
    rw [e2]
    ring

theorem address_width_testBit (b0 : Nat) (hb : b0 < 256) :
    (if b0 >>> 7 = 1 then (4:Nat) else 3) = if b0.testBit 7 then 4 else 3 := by
  have hs : b0 >>> 7 = b0 / 128 := by
    rw [Nat.shiftRight_eq_div_pow]
  have ht : b0.testBit 7 = decide (b0 / 2 ^ 7 % 2 = 1) := Nat.testBit_to_div_mod
  have h2 : b0 / 128 % 2 = b0 / 128 := by omega
  have hp7 : (2:Nat) ^ 7 = 128 := by norm_num
  rw [hs, ht, hp7, h2]
  simp

theorem indicesFrom_eq (n : Nat) : ∀ c : Nat,
    indicesFrom c n = (List.range n).map (fun i => c + i + 1) := by
  induction n with
  | zero => intro c; simp [indicesFrom]
  | succ m ih =>
    intro c
    rw [List.range_succ_eq_map]
    simp only [indicesFrom, count, List.map_cons, List.map_map]
    congr 1
    rw [ih (c + 1)]
    congr 1
    funext i
    simp only [Function.comp]
    omega

end Adv

namespace Adv

theorem processChunk_rss_branch (ts t w : Nat) (adv : AdvMap) (c : List Nat)
    (h : ¬ c.length < w + 1) (h1 : truthyRat (chunkValues t w c).rss = true) :
    processChunk ts t w adv c = setRecord adv (chunkAddress w c)
      { getRec adv (chunkAddress w c) with
        time := some ts
        rss := (getRec adv (chunkAddress w c)).rss ++ [(chunkValues t w c).rss.getD 0] } := by
  simp only [processChunk, if_neg h, chunkValues_address, h1, if_pos]

theorem processChunk_otap_branch (ts t w : Nat) (adv : AdvMap) (c : List Nat)
    (h : ¬ c.length < w + 1) (h1 : truthyRat (chunkValues t w c).rss = false)
    (h2 : truthyNat (chunkValues t w c).otap = true) :
    processChunk ts t w adv c = setRecord adv (chunkAddress w c)
      { getRec adv (chunkAddress w c) with
        time := some ts
        otap := (getRec adv (chunkAddress w c)).otap ++ [(chunkValues t w c).otap.getD 0] } := by
  simp only [processChunk, if_neg h, chunkValues_address, h1, h2, if_pos, Bool.false_eq_true,
    if_neg]
  simp

theorem processChunk_value_branch (ts t w : Nat) (adv : AdvMap) (c : List Nat)
    (h : ¬ c.length < w + 1) (h1 : truthyRat (chunkValues t w c).rss = false)
    (h2 : truthyNat (chunkValues t w c).otap = false) :
    processChunk ts t w adv c = setRecord adv (chunkAddress w c)
      { getRec adv (chunkAddress w c) with
        time := some ts
        value := (getRec adv (chunkAddress w c)).value ++ [(chunkValues t w c).value] } := by
  simp only [processChunk, if_neg h, chunkValues_address, h1, h2, Bool.false_eq_true, if_neg]
  simp

theorem test_inventory_loop_all_empty : ∀ (envs : List IterEnv) (s : LoopState),
    (∀ e ∈ envs, e.exit_flag = false ∧ e.queue_item = none ∧ e.out_of_time = false) →
    ∃ ec, test_inventory_loop envs s = ({ s with empty_counter := ec }, .env_exhausted)
  | [], s, _ => ⟨s.empty_counter, by simp [test_inventory_loop]⟩
  | e :: rest, s, h => by
    obtain ⟨hf, hq, ho⟩ := h e (by simp)
    obtain ⟨ec, hec⟩ := test_inventory_loop_all_empty rest
      { s with empty_counter := if s.empty_counter + 1 > 10 then 0 else s.empty_counter + 1 }
      (fun e he => h e (List.mem_cons_of_mem _ he))
    refine ⟨ec, ?_⟩
    simp only [test_inventory_loop, hf, hq, ho, Bool.false_eq_true, if_neg, if_false,
      not_false_eq_true]
    exact hec

end Adv

namespace Adv

theorem decode_recSize (ts : Nat) (buffer : List Nat) (adv0 : AdvMap) (a : Nat)
    (h : ¬ buffer.length < 2) (d : Decoded) (hd : decode ts buffer adv0 = .ok d) :
    recSize (getRec d.adv a) = recSize (getRec adv0 a) +
      fullChunksFor (if buffer.getD 0 0 >>> 7 = 1 then 4 else 3) (buffer.drop 2) a := by
  rw [decode_ok ts buffer adv0 h] at hd
  cases hd
  exact recSize_getRec_foldl _ _ _ a _ adv0

theorem decodeIter_recSize (ts : Nat) (buffer : List Nat) (a : Nat)
    (h : ¬ buffer.length < 2) : ∀ (n : Nat) (adv0 : AdvMap),
    recSize (getRec (decodeIter ts buffer n adv0) a) =
      recSize (getRec adv0 a) +
        n * fullChunksFor (if buffer.getD 0 0 >>> 7 = 1 then 4 else 3) (buffer.drop 2) a
  | 0, adv0 => by simp [decodeIter]
  | n + 1, adv0 => by
    rw [decodeIter, decode_ok ts buffer adv0 h]
    rw [decodeIter_recSize ts buffer a h n _]
    rw [recSize_getRec_foldl]
    simp only [fullChunksFor]
    ring

end Adv

namespace Adv

theorem decode_totalSamples (ts : Nat) (buffer : List Nat) (adv0 : AdvMap)
    (h : ¬ buffer.length < 2) (d : Decoded) (hd : decode ts buffer adv0 = .ok d) :
    totalSamples d.adv = totalSamples adv0 +
      (buffer.length - 2) / ((if buffer.getD 0 0 >>> 7 = 1 then 4 else 3) + 1) := by
  rw [decode_ok ts buffer adv0 h] at hd
  cases hd
  rw [totalSamples_foldl, chunker_full_count _ (by omega) _]
  simp

/-- C1: a body of `k` full chunks of `address_width + 1` bytes followed by a
shorter trailing chunk decodes without error into exactly `k` stored samples
(one per full chunk), the trailing bytes being dropped silently. -/
theorem c1_partial_trailing_chunk (ts k r : Nat) (buffer : List Nat) (adv0 : AdvMap)
    (h2 : 2 ≤ buffer.length)
    (hlen : buffer.length - 2 =
      k * ((if buffer.getD 0 0 >>> 7 = 1 then 4 else 3) + 1) + r)
    (hr1 : 0 < r) (hr2 : r < (if buffer.getD 0 0 >>> 7 = 1 then 4 else 3) + 1) :
    ∃ d : Decoded, decode ts buffer adv0 = .ok d ∧
      totalSamples d.adv = totalSamples adv0 + k := by
  have h : ¬ buffer.length < 2 := by omega
  refine ⟨_, decode_ok ts buffer adv0 h, ?_⟩
  rw [decode_totalSamples ts buffer adv0 h _ (decode_ok ts buffer adv0 h)]
  by_cases hif : buffer.getD 0 0 >>> 7 = 1
  · rw [if_pos hif] at hlen hr2 ⊢
    omega
  · rw [if_neg hif] at hlen hr2 ⊢
    omega

end Adv

namespace Adv

/-- C2: classification is frame-wide: decode() feeds every chunk the single
`adv_type = buffer[0] & 0x7F`; a record of an RSS frame decodes with value
`raw / 2 - 127`, of an OTAP frame with value `raw`, of any other frame with
value `raw`. -/
theorem c2_frame_wide_classification (ts : Nat) (buffer : List Nat) (adv0 : AdvMap)
    (h2 : 2 ≤ buffer.length) :
    decode ts buffer adv0 = .ok
      { adv_type := buffer.getD 0 0 &&& 0x7F
        adv_reserved_field := buffer.getD 1 0
        adv := (chunker ((if buffer.getD 0 0 >>> 7 = 1 then 4 else 3) + 1)
            (buffer.drop 2)).foldl
          (processChunk ts (buffer.getD 0 0 &&& 0x7F)
            (if buffer.getD 0 0 >>> 7 = 1 then 4 else 3)) adv0 } ∧
    (∀ (w : Nat) (c : List Nat),
      (buffer.getD 0 0 &&& 0x7F = message_type_rss →
        chunkValues (buffer.getD 0 0 &&& 0x7F) w c =
          { address := chunkAddress w c
            rss := some ((c.getLastD 0 : Rat) / 2 - 127)
            otap := none
            value := (c.getLastD 0 : Rat) / 2 - 127 }) ∧
      (buffer.getD 0 0 &&& 0x7F = message_type_otap →
        chunkValues (buffer.getD 0 0 &&& 0x7F) w c =
          { address := chunkAddress w c
            rss := none
            otap := some (c.getLastD 0)
            value := (c.getLastD 0 : Rat) }) ∧
      (buffer.getD 0 0 &&& 0x7F ≠ message_type_rss →
        buffer.getD 0 0 &&& 0x7F ≠ message_type_otap →
        chunkValues (buffer.getD 0 0 &&& 0x7F) w c =
          { address := chunkAddress w c
            rss := none
            otap := none
            value := (c.getLastD 0 : Rat) })) := by
  refine ⟨decode_ok ts buffer adv0 (by omega), fun w c => ⟨?_, ?_, ?_⟩⟩
  · intro ht
    rw [ht]
    simp [chunkValues, message_type_rss]
  · intro ht
    rw [ht]
    simp [chunkValues, message_type_rss, message_type_otap]
  · intro ht1 ht2
    simp only [chunkValues]
    rw [if_neg ht1, if_neg ht2]

/-- C3: decoding fails (with the short-header decode error) exactly on
buffers shorter than the 2-byte header; any buffer of at least 2 bytes
decodes without a header error. -/
theorem c3_short_header_error (ts : Nat) (buffer : List Nat) (adv0 : AdvMap) :
    (buffer.length < 2 → decode ts buffer adv0 = .error DecodeError.headerTooShort) ∧
    (2 ≤ buffer.length → ∃ d : Decoded, decode ts buffer adv0 = .ok d) := by
  constructor
  · intro h
    simp [decode, h]
  · intro h
    exact ⟨_, decode_ok ts buffer adv0 (by omega)⟩

end Adv

namespace Adv

/-- C5: the frame type is the low 7 bits of the first header byte, the
address width is 4 bytes when bit 7 of that byte is set and 3 otherwise, a
single width is applied to every chunk of the frame, and each record's
address is the little-endian concatenation of its address bytes. -/
theorem c5_type_width_little_endian_address (ts : Nat) (buffer : List Nat) (adv0 : AdvMap)
    (h2 : 2 ≤ buffer.length) (hb : ∀ x ∈ buffer, x < 256) :
    decode ts buffer adv0 = .ok
      { adv_type := buffer.getD 0 0 % 128
        adv_reserved_field := buffer.getD 1 0
        adv := (chunker ((if (buffer.getD 0 0).testBit 7 then 4 else 3) + 1)
            (buffer.drop 2)).foldl
          (processChunk ts (buffer.getD 0 0 % 128)
            (if (buffer.getD 0 0).testBit 7 then 4 else 3)) adv0 } ∧
    ∀ c ∈ chunker ((if (buffer.getD 0 0).testBit 7 then 4 else 3) + 1) (buffer.drop 2),
      chunkAddress (if (buffer.getD 0 0).testBit 7 then 4 else 3) c =
        if (buffer.getD 0 0).testBit 7 then
          c.getD 0 0 + 256 * c.getD 1 0 + 65536 * c.getD 2 0 + 16777216 * c.getD 3 0
        else
          c.getD 0 0 + 256 * c.getD 1 0 + 65536 * c.getD 2 0 := by
  have h : ¬ buffer.length < 2 := by omega
  have hb0 : buffer.getD 0 0 < 256 := getD_lt_of_forall buffer 0 hb
  have hwidth := address_width_testBit (buffer.getD 0 0) hb0
  have hmask : buffer.getD 0 0 &&& 0x7F = buffer.getD 0 0 % 128 := by
    have hm := Nat.and_pow_two_sub_one_eq_mod (buffer.getD 0 0) 7
    have e1 : (2:Nat) ^ 7 - 1 = 127 := by norm_num
    have e2 : (2:Nat) ^ 7 = 128 := by norm_num
    rw [e1, e2] at hm
    exact hm
  constructor
  · rw [decode_ok ts buffer adv0 h, hmask, hwidth]
  · intro c hc
    have hcb : ∀ x ∈ c, x < 256 := fun x hx =>
      hb x (List.drop_subset 2 buffer (chunker_subset _ _ c hc x hx))
    rw [chunkAddress_littleEndian _ c hcb]
    by_cases hbit : (buffer.getD 0 0).testBit 7 <;> simp [hbit]

/-- C6: each processed record overwrites its node's `time` with the frame
timestamp (last write wins, whatever the sample kind), the per-node sample
lists only ever grow at the end (append-only, both per chunk and over a
whole `decode()` call), and each full chunk appends exactly one new sample
to the record of its address. -/
theorem c6_last_write_wins_append_only (ts t w : Nat) (adv : AdvMap) (c : List Nat)
    (hfull : ¬ c.length < w + 1) :
    (getRec (processChunk ts t w adv c) (chunkAddress w c)).time = some ts ∧
    mapListsExtend adv (processChunk ts t w adv c) ∧
    recSize (getRec (processChunk ts t w adv c) (chunkAddress w c)) =
      recSize (getRec adv (chunkAddress w c)) + 1 ∧
    ∀ (ts2 : Nat) (buffer : List Nat) (adv0 : AdvMap) (d : Decoded),
      decode ts2 buffer adv0 = .ok d → mapListsExtend adv0 d.adv := by
  refine ⟨time_processChunk ts t w adv c hfull, mapListsExtend_processChunk ts t w adv c,
    ?_, ?_⟩
  · rw [recSize_getRec_processChunk, if_pos ⟨by omega, rfl⟩]
  · intro ts2 buffer adv0 d hd
    by_cases hlen : buffer.length < 2
    · rw [decode] at hd
      simp [hlen] at hd
    · rw [decode_ok ts2 buffer adv0 hlen] at hd
      cases hd
      exact mapListsExtend_foldl _ _ _ _ adv0

/-- C7: `count()` adds exactly 1 to the shared message counter and stamps
the message with the counter's new value, and because `test_inventory`
resets the counter to 0 before its loop the i-th message of a run gets
index i whatever the counter held before the run. -/
theorem c7_sequencer_monotone_reset :
    (∀ c : Nat, count c = (c + 1, c + 1)) ∧
    (∀ cPrev n : Nat, inventoryRunIndices cPrev n =
      (List.range n).map (fun i => i + 1)) := by
  constructor
  · intro c
    rfl
  · intro cPrev n
    rw [inventoryRunIndices, indicesFrom_eq]
    simp

end Adv

namespace Adv

/-- C8: on a queue-empty timeout the ingestion loop exits exactly when
`is_out_of_time()` answers true, continuing otherwise with the processed
frames untouched (a timeout is never an error); the exit flag is polled
once, at the top of each iteration, and when it is set the loop exits at
once, without dequeuing or processing any further frame; in particular a
trace of nothing but timeouts inside the deadline never ends the loop. -/
theorem c8_loop_timeout_and_cancellation (e : IterEnv) (rest : List IterEnv) (s : LoopState) :
    (e.exit_flag = false → e.queue_item = none → e.out_of_time = false →
      test_inventory_loop (e :: rest) s =
        test_inventory_loop rest
          { s with empty_counter :=
              if s.empty_counter + 1 > 10 then 0 else s.empty_counter + 1 }) ∧
    (e.exit_flag = false → e.queue_item = none → e.out_of_time = true →
      test_inventory_loop (e :: rest) s =
        ({ s with empty_counter :=
            if s.empty_counter + 1 > 10 then 0 else s.empty_counter + 1 },
          ExitReason.out_of_time)) ∧
    (e.exit_flag = true →
      test_inventory_loop (e :: rest) s = (s, ExitReason.exit_signal)) ∧
    (∀ envs : List IterEnv,
      (∀ e2 ∈ envs, e2.exit_flag = false ∧ e2.queue_item = none ∧ e2.out_of_time = false) →
      ∃ ec, test_inventory_loop envs s =
        ({ s with empty_counter := ec }, ExitReason.env_exhausted)) := by
  refine ⟨?_, ?_, ?_, fun envs hall => test_inventory_loop_all_empty envs s hall⟩
  · intro hf hq ho
    simp [test_inventory_loop, hf, hq, ho]
  · intro hf hq ho
    simp [test_inventory_loop, hf, hq, ho]
  · intro hf
    simp [test_inventory_loop, hf]

/-- C10: `decode()` accumulates: running it `n` times over the same buffer
(as the constructor plus repeated explicit calls do) grows every node's
stored-sample count by `n` samples per full chunk addressed to that node. -/
theorem c10_decode_accumulates (ts n : Nat) (buffer : List Nat) (adv0 : AdvMap) (a : Nat)
    (h2 : 2 ≤ buffer.length) :
    recSize (getRec (decodeIter ts buffer n adv0) a) =
      recSize (getRec adv0 a) +
        n * fullChunksFor (if buffer.getD 0 0 >>> 7 = 1 then 4 else 3) (buffer.drop 2) a :=
  decodeIter_recSize ts buffer a (by omega) n adv0

end Adv

namespace Adv

theorem chunkValues_rss (w : Nat) (c : List Nat) :
    chunkValues message_type_rss w c =
      { address := chunkAddress w c
        rss := some ((c.getLastD 0 : Rat) / 2 - 127)
        otap := none
        value := (c.getLastD 0 : Rat) / 2 - 127 } := by
  simp only [chunkValues, if_pos]

theorem chunkValues_otap (w : Nat) (c : List Nat) :
    chunkValues message_type_otap w c =
      { address := chunkAddress w c
        rss := none
        otap := some (c.getLastD 0)
        value := (c.getLastD 0 : Rat) } := by
  simp only [chunkValues]
  rw [if_neg (by decide)]
  simp

theorem rss_value_zero_iff (raw : Nat) : (raw : Rat) / 2 - 127 = 0 ↔ raw = 254 := by
  constructor
  · intro h
    have : (raw : Rat) = 254 := by linarith
    exact_mod_cast this
  · intro h
    subst h
    norm_num

end Adv

namespace Adv

/-- C9: routing to the per-node lists follows Python truthiness of the
decoded value, not the frame type: an RSS record decoding to 0.0 (raw byte
254) and an OTAP record with raw 0 land in the node's raw `value` list;
only a non-zero decoded RSS (resp. OTAP) sample is appended to the
kind-specific list. -/
theorem c9_truthiness_routing (ts w : Nat) (adv : AdvMap) (c : List Nat)
    (hfull : ¬ c.length < w + 1) :
    (c.getLastD 0 = 254 →
      processChunk ts message_type_rss w adv c = setRecord adv (chunkAddress w c)
        { getRec adv (chunkAddress w c) with
          time := some ts
          value := (getRec adv (chunkAddress w c)).value ++ [0] }) ∧
    (c.getLastD 0 = 0 →
      processChunk ts message_type_otap w adv c = setRecord adv (chunkAddress w c)
        { getRec adv (chunkAddress w c) with
          time := some ts
          value := (getRec adv (chunkAddress w c)).value ++ [0] }) ∧
    (c.getLastD 0 ≠ 254 →
      processChunk ts message_type_rss w adv c = setRecord adv (chunkAddress w c)
        { getRec adv (chunkAddress w c) with
          time := some ts
          rss := (getRec adv (chunkAddress w c)).rss ++ [(c.getLastD 0 : Rat) / 2 - 127] }) ∧
    (c.getLastD 0 ≠ 0 →
      processChunk ts message_type_otap w adv c = setRecord adv (chunkAddress w c)
        { getRec adv (chunkAddress w c) with
          time := some ts
          otap := (getRec adv (chunkAddress w c)).otap ++ [c.getLastD 0] }) := by
  refine ⟨?_, ?_, ?_, ?_⟩
  · intro hraw
    have hq : (c.getLastD 0 : Rat) / 2 - 127 = 0 := (rss_value_zero_iff _).mpr hraw
    have h1 : truthyRat (chunkValues message_type_rss w c).rss = false := by
      rw [chunkValues_rss]
      exact decide_eq_false (fun hne => hne hq)
    have h2 : truthyNat (chunkValues message_type_rss w c).otap = false := by
      rw [chunkValues_rss]
      rfl
    rw [processChunk_value_branch ts _ w adv c hfull h1 h2, chunkValues_rss]
    dsimp only
    rw [hq]
  · intro hraw
    have h1 : truthyRat (chunkValues message_type_otap w c).rss = false := by
      rw [chunkValues_otap]
      rfl
    have h2 : truthyNat (chunkValues message_type_otap w c).otap = false := by
      rw [chunkValues_otap]
      exact decide_eq_false (fun hne => hne hraw)
    rw [processChunk_value_branch ts _ w adv c hfull h1 h2, chunkValues_otap]
    dsimp only
    rw [hraw]
    norm_num
  · intro hraw
    have hq : (c.getLastD 0 : Rat) / 2 - 127 ≠ 0 := fun h =>
      hraw ((rss_value_zero_iff _).mp h)
    have h1 : truthyRat (chunkValues message_type_rss w c).rss = true := by
      rw [chunkValues_rss]
      exact decide_eq_true hq
    rw [processChunk_rss_branch ts _ w adv c hfull h1, chunkValues_rss]
    rfl
  · intro hraw
    have h1 : truthyRat (chunkValues message_type_otap w c).rss = false := by
      rw [chunkValues_otap]
      rfl
    have h2 : truthyNat (chunkValues message_type_otap w c).otap = true := by
      rw [chunkValues_otap]
      exact decide_eq_true hraw
    rw [processChunk_otap_branch ts _ w adv c hfull h1 h2, chunkValues_otap]
    rfl

end Adv

namespace Adv

/-- C4 (amended): in an RSS frame a record with raw byte 254 decodes to the
RSS value 254 / 2 - 127 = 0.0, but since 0.0 is falsy that sample is
appended to the node's raw `value` list; the node's `rss` list is left
unchanged. -/
theorem c4_rss254_zero_goes_to_raw_list (ts w : Nat) (adv : AdvMap) (c : List Nat)
    (hfull : ¬ c.length < w + 1) (hraw : c.getLastD 0 = 254) :
    (chunkValues message_type_rss w c).rss = some ((254 : Rat) / 2 - 127) ∧
    (254 : Rat) / 2 - 127 = 0 ∧
    (getRec (processChunk ts message_type_rss w adv c) (chunkAddress w c)).rss =
      (getRec adv (chunkAddress w c)).rss ∧
    (getRec (processChunk ts message_type_rss w adv c) (chunkAddress w c)).value =
      (getRec adv (chunkAddress w c)).value ++ [0] := by
  have hq : (c.getLastD 0 : Rat) / 2 - 127 = 0 := (rss_value_zero_iff _).mpr hraw
  have h1 : truthyRat (chunkValues message_type_rss w c).rss = false := by
    rw [chunkValues_rss]
    exact decide_eq_false (fun hne => hne hq)
  have h2 : truthyNat (chunkValues message_type_rss w c).otap = false := by
    rw [chunkValues_rss]
    rfl
  have hpc := processChunk_value_branch ts message_type_rss w adv c hfull h1 h2
  refine ⟨by rw [chunkValues_rss, hraw]; norm_num, by norm_num, ?_, ?_⟩
  · rw [hpc, getRec_setRecord, if_pos rfl]
  · rw [hpc, getRec_setRecord, if_pos rfl, chunkValues_rss]
    dsimp only
    rw [hq]

end Adv

namespace Adv

/-- C4 counterexample: decoding the RSS frame `[2, 0, 1, 0, 0, 254]`
(type 2, one record for node 1 with raw value 254) stores the decoded
sample 0 in node 1's raw `value` list; the `rss` list stays empty, so the
sample is not recorded as an RSS sample. -/
theorem c4_counterexample_rss254 :
    decode 5 [2, 0, 1, 0, 0, 254] [] =
      .ok { adv_type := 2, adv_reserved_field := 0,
            adv := [(1, { time := some 5, rss := [], otap := [], value := [0] })] } := by
  have hne : ¬ ([2, 0, 1, 0, 0, 254] : List Nat).length < 2 := by decide
  rw [decode_ok 5 [2, 0, 1, 0, 0, 254] [] hne]
  have hg0 : ([2, 0, 1, 0, 0, 254] : List Nat).getD 0 0 = 2 := rfl
  have hg1 : ([2, 0, 1, 0, 0, 254] : List Nat).getD 1 0 = 0 := rfl
  rw [hg0, hg1]
  have hm : (2 : Nat) &&& 0x7F = 2 := by decide
  have hs : (2 : Nat) >>> 7 = 0 := by decide
  rw [hm, hs, if_neg (by decide)]
  have hdrop : ([2, 0, 1, 0, 0, 254] : List Nat).drop 2 = [1, 0, 0, 254] := rfl
  rw [hdrop]
  have hchunk : chunker (3 + 1) [1, 0, 0, 254] = [[1, 0, 0, 254]] := by
    rw [chunker_eq (3 + 1) [1, 0, 0, 254] (by decide) (by simp)]
    rw [show List.drop (3 + 1) [1, 0, 0, 254] = ([] : List Nat) from rfl, chunker_nil]
    rfl
  rw [hchunk]
  have hfold : List.foldl (processChunk 5 2 3) ([] : AdvMap) [[1, 0, 0, 254]] =
      processChunk 5 2 3 [] [1, 0, 0, 254] := rfl
  rw [hfold]
  have hl : ([1, 0, 0, 254] : List Nat).getLastD 0 = 254 := rfl
  have ha : chunkAddress 3 [1, 0, 0, 254] = 1 := by decide
  have hcv : chunkValues 2 3 [1, 0, 0, 254] =
      { address := 1, rss := some 0, otap := none, value := 0 } := by
    rw [show (2 : Nat) = message_type_rss from rfl, chunkValues_rss, ha, hl]
    norm_num
  have h1 : truthyRat (chunkValues 2 3 [1, 0, 0, 254]).rss = false := by
    rw [hcv]
    rfl
  have h2 : truthyNat (chunkValues 2 3 [1, 0, 0, 254]).otap = false := by
    rw [hcv]
    rfl
  have hfull : ¬ ([1, 0, 0, 254] : List Nat).length < 3 + 1 := by decide
  rw [processChunk_value_branch 5 2 3 [] [1, 0, 0, 254] hfull h1 h2, hcv, ha]
  rfl

end Adv

namespace Adv

theorem c1_witness :
    2 ≤ ([2, 0, 1, 0, 0, 254, 9] : List Nat).length ∧
    ([2, 0, 1, 0, 0, 254, 9] : List Nat).length - 2 =
      1 * ((if ([2, 0, 1, 0, 0, 254, 9] : List Nat).getD 0 0 >>> 7 = 1 then 4 else 3) + 1)
        + 1 ∧
    0 < 1 ∧
    1 < (if ([2, 0, 1, 0, 0, 254, 9] : List Nat).getD 0 0 >>> 7 = 1 then 4 else 3) + 1 ∧
    (∃ d : Decoded, decode 7 [2, 0, 1, 0, 0, 254, 9] [] = .ok d ∧
      totalSamples d.adv = totalSamples [] + 1) :=
  ⟨by decide, by decide, by decide, by decide,
    c1_partial_trailing_chunk 7 1 1 [2, 0, 1, 0, 0, 254, 9] [] (by decide) (by decide)
      (by decide) (by decide)⟩

theorem c2_witness :
    2 ≤ ([2, 0] : List Nat).length ∧
    decode 0 [2, 0] [] = .ok
      { adv_type := ([2, 0] : List Nat).getD 0 0 &&& 0x7F
        adv_reserved_field := ([2, 0] : List Nat).getD 1 0
        adv := (chunker ((if ([2, 0] : List Nat).getD 0 0 >>> 7 = 1 then 4 else 3) + 1)
            (([2, 0] : List Nat).drop 2)).foldl
          (processChunk 0 (([2, 0] : List Nat).getD 0 0 &&& 0x7F)
            (if ([2, 0] : List Nat).getD 0 0 >>> 7 = 1 then 4 else 3)) [] } :=
  ⟨by decide, (c2_frame_wide_classification 0 [2, 0] [] (by decide)).1⟩

theorem c3_witness :
    decode 0 [7] [] = .error DecodeError.headerTooShort ∧
    (∃ d : Decoded, decode 0 [2, 0] [] = .ok d) :=
  ⟨(c3_short_header_error 0 [7] []).1 (by decide),
    (c3_short_header_error 0 [2, 0] []).2 (by decide)⟩

theorem c4_amended_witness :
    ¬ ([1, 0, 0, 254] : List Nat).length < 3 + 1 ∧
    ([1, 0, 0, 254] : List Nat).getLastD 0 = 254 ∧
    (getRec (processChunk 5 message_type_rss 3 [] [1, 0, 0, 254])
        (chunkAddress 3 [1, 0, 0, 254])).rss =
      (getRec [] (chunkAddress 3 [1, 0, 0, 254])).rss ∧
    (getRec (processChunk 5 message_type_rss 3 [] [1, 0, 0, 254])
        (chunkAddress 3 [1, 0, 0, 254])).value =
      (getRec [] (chunkAddress 3 [1, 0, 0, 254])).value ++ [0] :=
  ⟨by decide, by decide,
    (c4_rss254_zero_goes_to_raw_list 5 3 [] [1, 0, 0, 254] (by decide) (by decide)).2.2.1,
    (c4_rss254_zero_goes_to_raw_list 5 3 [] [1, 0, 0, 254] (by decide) (by decide)).2.2.2⟩

theorem c5_witness :
    2 ≤ ([130, 7, 1, 2, 3, 4, 200] : List Nat).length ∧
    (∀ x ∈ ([130, 7, 1, 2, 3, 4, 200] : List Nat), x < 256) ∧
    decode 0 [130, 7, 1, 2, 3, 4, 200] [] = .ok
      { adv_type := ([130, 7, 1, 2, 3, 4, 200] : List Nat).getD 0 0 % 128
        adv_reserved_field := ([130, 7, 1, 2, 3, 4, 200] : List Nat).getD 1 0
        adv := (chunker
            ((if (([130, 7, 1, 2, 3, 4, 200] : List Nat).getD 0 0).testBit 7 then 4 else 3) + 1)
            (([130, 7, 1, 2, 3, 4, 200] : List Nat).drop 2)).foldl
          (processChunk 0 (([130, 7, 1, 2, 3, 4, 200] : List Nat).getD 0 0 % 128)
            (if (([130, 7, 1, 2, 3, 4, 200] : List Nat).getD 0 0).testBit 7 then 4 else 3)) [] } :=
  ⟨by decide, by decide,
    (c5_type_width_little_endian_address 0 [130, 7, 1, 2, 3, 4, 200] [] (by decide)
      (by decide)).1⟩

theorem c6_witness :
    ¬ ([1, 0, 0, 9] : List Nat).length < 3 + 1 ∧
    (getRec (processChunk 1 2 3 [] [1, 0, 0, 9]) (chunkAddress 3 [1, 0, 0, 9])).time =
      some 1 ∧
    recSize (getRec (processChunk 1 2 3 [] [1, 0, 0, 9]) (chunkAddress 3 [1, 0, 0, 9])) =
      recSize (getRec [] (chunkAddress 3 [1, 0, 0, 9])) + 1 :=
  ⟨by decide, (c6_last_write_wins_append_only 1 2 3 [] [1, 0, 0, 9] (by decide)).1,
    (c6_last_write_wins_append_only 1 2 3 [] [1, 0, 0, 9] (by decide)).2.2.1⟩

theorem c8_witness :
    test_inventory_loop
      [{ exit_flag := true, queue_item := some 42, out_of_time := false,
         complete := false, otaped := false, frequency_reached := false }]
      { processed := [], empty_counter := 0 } =
      ({ processed := [], empty_counter := 0 }, ExitReason.exit_signal) :=
  (c8_loop_timeout_and_cancellation
    { exit_flag := true, queue_item := some 42, out_of_time := false,
      complete := false, otaped := false, frequency_reached := false }
    [] { processed := [], empty_counter := 0 }).2.2.1 rfl

theorem c9_witness :
    ¬ ([1, 0, 0, 254] : List Nat).length < 3 + 1 ∧
    processChunk 9 message_type_rss 3 [] [1, 0, 0, 254] =
      setRecord [] (chunkAddress 3 [1, 0, 0, 254])
        { getRec [] (chunkAddress 3 [1, 0, 0, 254]) with
          time := some 9
          value := (getRec [] (chunkAddress 3 [1, 0, 0, 254])).value ++ [0] } :=
  ⟨by decide, (c9_truthiness_routing 9 3 [] [1, 0, 0, 254] (by decide)).1 (by decide)⟩

theorem c10_witness :
    2 ≤ ([2, 0, 1, 0, 0, 254] : List Nat).length ∧
    recSize (getRec (decodeIter 0 [2, 0, 1, 0, 0, 254] 2 []) 1) =
      recSize (getRec [] 1) +
        2 * fullChunksFor
          (if ([2, 0, 1, 0, 0, 254] : List Nat).getD 0 0 >>> 7 = 1 then 4 else 3)
          (([2, 0, 1, 0, 0, 254] : List Nat).drop 2) 1 :=
  ⟨by decide, c10_decode_accumulates 0 2 [2, 0, 1, 0, 0, 254] [] 1 (by decide)⟩

end Adv
